import Mathlib

/-!
# Server-side rendering bridge: `server.js`

A shallow embedding of `injectHTML` and of the two request handlers of
`server.js`.

JavaScript strings are modelled as lists of characters (`Str`).  Every marker
the program searches for is plain ASCII, so searching by character and
searching by UTF-16 code unit find the same occurrences.

`String.prototype.replace` is modelled with the behaviour the language
standard gives it:

* with a string pattern only the first occurrence is replaced;
* with a global regular expression whose source is a literal word, every
  match is replaced, the search resuming right after the previous match;
* in both cases the replacement text is first expanded (`GetSubstitution`):
  `$$` gives `$`, `$&` the matched text, `$` followed by a grave accent the
  text before the match and `$` followed by an apostrophe the text after it.
  There are no capture groups, so `$1`, `$<name>` and so on stay as written.
-/

namespace Server

/-- A JavaScript string. -/
abbrev Str := List Char

/-- The grave accent, second character of the "text before the match" pattern. -/
def graveAccent : Char := Char.ofNat 96

/-- The apostrophe, second character of the "text after the match" pattern. -/
def apostrophe : Char := Char.ofNat 39

/-- Expansion of a replacement text (`GetSubstitution` of the language
standard, for a match without capture groups): `matched` is the matched text,
`before` and `after` are the parts of the searched string around the match. -/
def getSubstitution (matched before after : Str) : Str → Str
  | [] => []
  | c :: rest =>
    if c = '$' then
      match rest with
      | [] => [c]
      | d :: r =>
        if d = '$' then '$' :: getSubstitution matched before after r
        else if d = '&' then matched ++ getSubstitution matched before after r
        else if d = graveAccent then before ++ getSubstitution matched before after r
        else if d = apostrophe then after ++ getSubstitution matched before after r
        else c :: d :: getSubstitution matched before after r
    else c :: getSubstitution matched before after rest

/-- Replace the first occurrence of `pat` that lies inside `s`, where the
string searched is `before ++ s ++ after` and the search has reached the start
of `s`. -/
def replaceFirstIn (pat repl : Str) : Str → Str → Str → Str
  | before, [], after =>
    if pat = [] then getSubstitution pat before after repl else []
  | before, c :: cs, after =>
    if pat.isPrefixOf (c :: cs) then
      getSubstitution pat before ((c :: cs).drop pat.length ++ after) repl
        ++ (c :: cs).drop pat.length
    else c :: replaceFirstIn pat repl (before ++ [c]) cs after

/-- The call `s.replace(pat, repl)` with a string pattern. -/
def replace (pat repl s : Str) : Str :=
  replaceFirstIn pat repl [] s []

/-- Replace every match of the literal word `pat` inside `s`, where the string
searched is `before ++ s ++ after`; after a match the search resumes right
behind it.  The numeric argument bounds the number of search positions; for a
non-empty `pat` any bound from the length of `s` on gives the same result
(`replaceAllIn_fuel`). -/
def replaceAllIn (pat repl : Str) : Nat → Str → Str → Str → Str
  | 0, _, s, _ => s
  | _ + 1, _, [], _ => []
  | fuel + 1, before, c :: cs, after =>
    if pat.isPrefixOf (c :: cs) then
      getSubstitution pat before ((c :: cs).drop pat.length ++ after) repl
        ++ replaceAllIn pat repl fuel (before ++ pat) ((c :: cs).drop pat.length) after
    else c :: replaceAllIn pat repl fuel (before ++ [c]) cs after

/-- The call `s.replace(/pat/g, repl)` for a literal, non-empty word `pat`:
one search position per character of `s` is enough. -/
def replaceAll (pat repl s : Str) : Str :=
  replaceAllIn pat repl s.length [] s []

/-- The root-mount placeholder. -/
def rootMarker : Str := "<div id=\"root\"></div>".toList

/-- The opening tag of the mount element. -/
def rootOpen : Str := "<div id=\"root\">".toList

/-- The closing tag of the mount element. -/
def divClose : Str := "</div>".toList

/-- The closing-body marker. -/
def bodyClose : Str := "</body>".toList

/-- The start of the hydration script. -/
def scriptOpen : Str := "<script>window.__INITIAL_DATA__ = ".toList

/-- The end of the hydration script, followed by the closing-body tag. -/
def scriptClose : Str := "</script></body>".toList

/-- The title placeholder token. -/
def seoTitleToken : Str := "__SEO_TITLE__".toList

/-- The description placeholder token. -/
def seoDescriptionToken : Str := "__SEO_DESCRIPTION__".toList

/-- The keywords placeholder token. -/
def seoKeywordsToken : Str := "__SEO_KEYWORDS__".toList

/-- The SEO descriptor. -/
structure Seo where
  title : Str
  description : Str
  keywords : Str
deriving DecidableEq, Repr

/-- The second argument of `injectHTML`. -/
structure Payload where
  appHTML : Str
  initialData : Str
  seo : Seo
deriving DecidableEq, Repr

/-- The function `injectHTML(htmlTemplate, { appHTML, initialData, seo })`. -/
def injectHTML (htmlTemplate : Str) (p : Payload) : Str :=
  replaceAll seoKeywordsToken p.seo.keywords
    (replaceAll seoDescriptionToken p.seo.description
      (replaceAll seoTitleToken p.seo.title
        (replace bodyClose (scriptOpen ++ p.initialData ++ scriptClose)
          (replace rootMarker (rootOpen ++ p.appHTML ++ divClose) htmlTemplate))))

/-- The document after the first call of the chain in `injectHTML`. -/
def afterRoot (htmlTemplate : Str) (p : Payload) : Str :=
  replace rootMarker (rootOpen ++ p.appHTML ++ divClose) htmlTemplate

/-- The document after the second call of the chain in `injectHTML`. -/
def afterBody (htmlTemplate : Str) (p : Payload) : Str :=
  replace bodyClose (scriptOpen ++ p.initialData ++ scriptClose) (afterRoot htmlTemplate p)

/-- The document after the third call of the chain in `injectHTML`. -/
def afterTitle (htmlTemplate : Str) (p : Payload) : Str :=
  replaceAll seoTitleToken p.seo.title (afterBody htmlTemplate p)

/-- The document after the fourth call of the chain in `injectHTML`. -/
def afterDescription (htmlTemplate : Str) (p : Payload) : Str :=
  replaceAll seoDescriptionToken p.seo.description (afterTitle htmlTemplate p)

/-- The last three calls of the chain in `injectHTML`: the three global
replacements of the SEO tokens, in the order title, description, keywords. -/
def seoPasses (seo : Seo) (s : Str) : Str :=
  replaceAll seoKeywordsToken seo.keywords
    (replaceAll seoDescriptionToken seo.description
      (replaceAll seoTitleToken seo.title s))

/-- The fixed SEO descriptor of the home page. -/
def homeSeo : Seo :=
  { title := "Discover Our Products – Shop Smart".toList
    description :=
      "Explore trending items from FakeStore API — discover, filter, and shop smarter.".toList
    keywords := "ecommerce, products, online store, fashion, shopping".toList }

/-- The fixed SEO descriptor of the fallback route. -/
def fallbackSeo : Seo :=
  { title := "Shop Smart – Explore Products".toList
    description := "Your one-stop shop for the latest and greatest products.".toList
    keywords := "ecommerce, shopping, deals".toList }

/-- The body sent when the build template is missing. -/
def buildNotFoundMessage : Str :=
  "❌ Build index.html not found. Run `npm run build` in frontend.".toList

/-- The body sent from the `catch` branch of the root handler. -/
def ssrErrorMessage : Str := "An error occurred during server-side rendering.".toList

/-- The body sent by the fallback route when there is no template. -/
def notFoundMessage : Str := "404 - Page not found".toList

/-- What a handler sends: the status code (200 unless `res.status` is called)
and the body. -/
structure Response where
  status : Nat
  body : Str
deriving DecidableEq, Repr

/-- The handler of `GET /`.  Its inputs are the outcome of the upstream request
(`fetched`), the outcomes of `JSON.stringify` and of `renderToString` on the
products, each of which may throw, and the build template (`none` when
`index.html` does not exist; an existing file is taken to be readable).
Anything thrown inside the `try` block ends in the `catch` branch. -/
def rootHandler {ε Products : Type} (fetched : Except ε Products)
    (stringify render : Products → Except ε Str) (template : Option Str) : Response :=
  match fetched with
  | .error _ => { status := 500, body := ssrErrorMessage }
  | .ok products =>
    match stringify products with
    | .error _ => { status := 500, body := ssrErrorMessage }
    | .ok initialData =>
      match render products with
      | .error _ => { status := 500, body := ssrErrorMessage }
      | .ok appHTML =>
        match template with
        | none => { status := 500, body := buildNotFoundMessage }
        | some htmlData =>
          { status := 200
            body := injectHTML htmlData
              { appHTML := appHTML, initialData := initialData, seo := homeSeo } }

/-- The handler of `GET *`, for the request path `path` and the build template
(`none` when `index.html` does not exist). -/
def fallbackHandler (_path : Str) (template : Option Str) : Response :=
  match template with
  | some htmlData =>
    { status := 200
      body := injectHTML htmlData
        { appHTML := [], initialData := "[]".toList, seo := fallbackSeo } }
  | none => { status := 404, body := notFoundMessage }

/-- No occurrence of `pat` in `u ++ w` lies across the junction of `u` and
`w`: every occurrence ends within `u` or starts within `w`. -/
def Cut (pat u w : Str) : Prop :=
  ∀ x y : Str, x ++ pat ++ y = u ++ w →
    x.length + pat.length ≤ u.length ∨ u.length ≤ x.length

/-- In `pre ++ pat ++ post` no occurrence of `pat` starts before the one that
follows `pre`. -/
def IsFirstOccurrence (pat pre post : Str) : Prop :=
  ∀ x y : Str, x ++ pat ++ y = pre ++ pat ++ post → pre.length ≤ x.length

/-- No occurrence of `pat` touches the block `B`, whatever surrounds it: none
lies inside `B` and none crosses either end of `B`. -/
def Inert (pat B : Str) : Prop :=
  ¬ pat <:+: B ∧ ∀ u v : Str, Cut pat u (B ++ v) ∧ Cut pat B v

/-- The block is left alone by the search for each of the three SEO tokens. -/
def SeoInert (B : Str) : Prop :=
  Inert seoTitleToken B ∧ Inert seoDescriptionToken B ∧ Inert seoKeywordsToken B

/-- The three SEO fields. -/
inductive SeoField where
  | title
  | description
  | keywords
deriving DecidableEq, Repr

/-- The placeholder token of a field. -/
def tokenOf : SeoField → Str
  | .title => seoTitleToken
  | .description => seoDescriptionToken
  | .keywords => seoKeywordsToken

/-- The value of a field in a descriptor. -/
def valueOf (seo : Seo) : SeoField → Str
  | .title => seo.title
  | .description => seo.description
  | .keywords => seo.keywords

/-- What stands at a token occurrence of field `k` once the passes for the
fields in `done` have run: the value if the pass of `k` has run, else the
token. -/
def partialValue (seo : Seo) (done : List SeoField) (k : SeoField) : Str :=
  if k ∈ done then valueOf seo k else tokenOf k

/-- The document `g0 ++ blk k1 ++ g1 ++ blk k2 ++ g2 ++ ...`: stretches of
text with one block per listed field between them. -/
def weave {α : Type} (blk : α → Str) : Str → List (α × Str) → Str
  | g0, [] => g0
  | g0, (k, g) :: rest => g0 ++ blk k ++ weave blk g rest

/-- The characters that occur in the SEO tokens. -/
def tokenChars : List Char := seoTitleToken ++ seoDescriptionToken ++ seoKeywordsToken

/-- A stretch of text between token occurrences: it is not empty, its first
and its last character are not characters of a token, and no token occurs in
it. -/
def Gap (g : Str) : Prop :=
  g.headD '_' ∉ tokenChars ∧ g.getLastD '_' ∉ tokenChars
    ∧ ¬ seoTitleToken <:+: g ∧ ¬ seoDescriptionToken <:+: g ∧ ¬ seoKeywordsToken <:+: g

instance (g : Str) : Decidable (Gap g) := by
  unfold Gap
  infer_instance

/-- The part of `Gap` that matters to the search for one pattern. -/
def GapFor (pat g : Str) : Prop :=
  (∃ c r, g = c :: r ∧ c ∉ pat.tail) ∧ (∃ r c, g = r ++ [c] ∧ c ∉ pat.dropLast)
    ∧ ¬ pat <:+: g

end Server

namespace Server

/-! ### The replacement-text expansion -/

theorem getSubstitution_of_not_mem (m b a : Str) :
    ∀ r : Str, '$' ∉ r → getSubstitution m b a r = r
  | [], _ => rfl
  | c :: rest, h => by
    have hc : c ≠ '$' := fun e => h (e ▸ List.mem_cons_self _ _)
    have hr : '$' ∉ rest := fun e => h (List.mem_cons_of_mem _ e)
    have ih := getSubstitution_of_not_mem m b a rest hr
    cases rest with
    | nil => simp [getSubstitution, hc]
    | cons d r => simp [getSubstitution, hc, ih]

/-! ### Searching: prefixes and occurrences -/

theorem not_infix_of_cons {pat : Str} {c : Char} {s : Str} (h : ¬ pat <:+: c :: s) :
    ¬ pat <:+: s := fun h1 => h (List.infix_cons h1)

theorem isPrefixOf_false_of_absent {pat s : Str} (h : ¬ pat <:+: s) :
    pat.isPrefixOf s = false := by
  cases hb : pat.isPrefixOf s with
  | false => rfl
  | true => exact absurd (List.isPrefixOf_iff_prefix.1 hb).isInfix h

/-! ### The first-occurrence replacement -/

theorem replaceFirstIn_of_absent (pat r : Str) :
    ∀ (s L R : Str), ¬ pat <:+: s → replaceFirstIn pat r L s R = s
  | [], L, R, h => by
    have hp : pat ≠ [] := fun e => h (e ▸ List.infix_refl _)
    simp [replaceFirstIn, hp]
  | c :: cs, L, R, h => by
    simp [replaceFirstIn, isPrefixOf_false_of_absent h,
      replaceFirstIn_of_absent pat r cs _ R (not_infix_of_cons h)]

theorem replace_of_absent (pat r s : Str) (h : ¬ pat <:+: s) : replace pat r s = s :=
  replaceFirstIn_of_absent pat r s [] [] h

/-! ### The global replacement -/

theorem replaceAllIn_of_absent (pat r : Str) :
    ∀ (n : Nat) (s L R : Str), ¬ pat <:+: s → replaceAllIn pat r n L s R = s
  | 0, s, L, R, _ => by simp [replaceAllIn]
  | n + 1, [], L, R, _ => by simp [replaceAllIn]
  | n + 1, c :: cs, L, R, h => by
    simp [replaceAllIn, isPrefixOf_false_of_absent h,
      replaceAllIn_of_absent pat r n cs _ R (not_infix_of_cons h)]

theorem replaceAll_of_absent (pat r s : Str) (h : ¬ pat <:+: s) : replaceAll pat r s = s :=
  replaceAllIn_of_absent pat r _ s [] [] h

theorem replaceAllIn_fuel (pat r : Str) (hp : pat ≠ []) :
    ∀ (n m : Nat) (s L R : Str), s.length ≤ n → s.length ≤ m →
      replaceAllIn pat r n L s R = replaceAllIn pat r m L s R
  | 0, m, s, L, R, hn, _ => by
    have hs : s = [] := List.length_eq_zero.1 (Nat.le_zero.1 hn)
    subst hs
    cases m <;> simp [replaceAllIn]
  | n + 1, 0, s, L, R, _, hm => by
    have hs : s = [] := List.length_eq_zero.1 (Nat.le_zero.1 hm)
    subst hs
    simp [replaceAllIn]
  | n + 1, m + 1, [], L, R, _, _ => by simp [replaceAllIn]
  | n + 1, m + 1, c :: cs, L, R, hn, hm => by
    have hlen : 0 < pat.length := List.length_pos.2 hp
    simp only [List.length_cons, Nat.add_le_add_iff_right] at hn hm
    have hd : ((c :: cs).drop pat.length).length ≤ cs.length := by
      simp only [List.length_drop, List.length_cons]; omega
    simp only [replaceAllIn]
    rw [replaceAllIn_fuel pat r hp n m _ _ R (le_trans hd hn) (le_trans hd hm),
      replaceAllIn_fuel pat r hp n m cs _ R hn hm]

theorem replaceAllIn_match (pat r : Str) (hp : pat ≠ []) (n : Nat) (s L R : Str)
    (hn : (pat ++ s).length ≤ n) :
    replaceAllIn pat r n L (pat ++ s) R
      = getSubstitution pat L (s ++ R) r ++ replaceAllIn pat r s.length (L ++ pat) s R := by
  obtain ⟨c, p, rfl⟩ := List.exists_cons_of_ne_nil hp
  cases n with
  | zero => simp at hn
  | succ n =>
    have hpre : (c :: p).isPrefixOf (c :: p ++ s) = true :=
      List.isPrefixOf_iff_prefix.2 (List.prefix_append _ _)
    have hdrop : (c :: (p ++ s)).drop (c :: p).length = s := by
      simp
    simp only [List.cons_append] at hpre hn ⊢
    simp only [replaceAllIn, hpre, if_true, hdrop]
    rw [replaceAllIn_fuel (c :: p) r (by simp) n s.length s _ R (by simp at hn; omega) le_rfl]

theorem replaceAllIn_skip (pat r : Str) (hp : pat ≠ []) (n : Nat) (c : Char) (s L R : Str)
    (hn : (c :: s).length ≤ n) (h : ¬ pat <+: c :: s) :
    replaceAllIn pat r n L (c :: s) R
      = c :: replaceAllIn pat r s.length (L ++ [c]) s R := by
  cases n with
  | zero => simp at hn
  | succ n =>
    have hpre : pat.isPrefixOf (c :: s) = false := by
      cases hb : pat.isPrefixOf (c :: s) with
      | false => rfl
      | true => exact absurd (List.isPrefixOf_iff_prefix.1 hb) h
    simp only [replaceAllIn, hpre]
    rw [replaceAllIn_fuel pat r hp n s.length s _ R (by simpa using hn) le_rfl]
    simp

/-! ### Junctions that no occurrence crosses -/

theorem Cut.drop_left {pat a u w : Str} (h : Cut pat (a ++ u) w) : Cut pat u w := by
  intro x y e
  have h1 := h (a ++ x) y (by simp only [List.append_assoc] at e ⊢; rw [e])
  simp only [List.length_append] at h1
  omega

theorem Cut.prefix_left {pat u w : Str} (h : Cut pat u w) (hu : u ≠ [])
    (hpre : pat <+: u ++ w) : pat <+: u := by
  obtain ⟨y, e⟩ := hpre
  have h1 := h [] y (by simpa using e)
  have hl : pat.length ≤ u.length := by
    rcases h1 with h1 | h1
    · simpa using h1
    · exact absurd (List.length_eq_zero.1 (Nat.le_zero.1 h1)) hu
  exact List.prefix_of_prefix_length_le ⟨y, e⟩ (List.prefix_append u w) hl

theorem Cut.infix_or {pat u w : Str} (h : Cut pat u w) (hi : pat <:+: u ++ w) :
    pat <:+: u ∨ pat <:+: w := by
  obtain ⟨x, y, e⟩ := hi
  rcases h x y e with h1 | h1
  · left
    have h2 : x ++ pat <+: u :=
      List.prefix_of_prefix_length_le ⟨y, e⟩ (List.prefix_append u w) (by simpa using h1)
    obtain ⟨t, rfl⟩ := h2
    exact ⟨x, t, rfl⟩
  · right
    have h2 : u <+: x :=
      List.prefix_of_prefix_length_le (List.prefix_append u w)
        ⟨pat ++ y, by simpa [List.append_assoc] using e⟩ h1
    obtain ⟨t, rfl⟩ := h2
    have h3 : t ++ pat ++ y = w := by simpa [List.append_assoc] using e
    exact ⟨t, y, h3⟩

theorem Cut.absent {pat u w : Str} (h : Cut pat u w) (hu : ¬ pat <:+: u)
    (hw : ¬ pat <:+: w) : ¬ pat <:+: u ++ w := fun hi =>
  (h.infix_or hi).elim hu hw

theorem replaceFirstIn_cons_match (pat r : Str) (c : Char) (s L R : Str)
    (h : pat <+: c :: s) :
    replaceFirstIn pat r L (c :: s) R
      = getSubstitution pat L ((c :: s).drop pat.length ++ R) r ++ (c :: s).drop pat.length := by
  rw [replaceFirstIn, if_pos (List.isPrefixOf_iff_prefix.2 h)]

theorem replaceFirstIn_cons_skip (pat r : Str) (c : Char) (s L R : Str)
    (h : ¬ pat <+: c :: s) :
    replaceFirstIn pat r L (c :: s) R = c :: replaceFirstIn pat r (L ++ [c]) s R := by
  rw [replaceFirstIn, if_neg (fun hb => h (List.isPrefixOf_iff_prefix.1 hb))]

theorem replaceFirstIn_append_left (pat r : Str) (hp : pat ≠ []) (w R : Str) :
    ∀ (u L : Str), pat <:+: u →
      replaceFirstIn pat r L (u ++ w) R = replaceFirstIn pat r L u (w ++ R) ++ w
  | [], _, h => absurd (List.infix_nil.1 h) hp
  | c :: u, L, h => by
    by_cases hpre : pat <+: c :: u
    · have h1 : pat <+: c :: (u ++ w) := by
        simpa using hpre.trans (List.prefix_append _ w)
      have h3 : (c :: (u ++ w)).drop pat.length = (c :: u).drop pat.length ++ w := by
        rw [← List.cons_append, List.drop_append_of_le_length hpre.length_le]
      rw [List.cons_append, replaceFirstIn_cons_match pat r c _ L R h1,
        replaceFirstIn_cons_match pat r c _ L _ hpre, h3]
      simp only [List.append_assoc]
    · have hu : pat <:+: u := by
        rcases List.infix_cons_iff.1 h with h1 | h1
        · exact absurd h1 hpre
        · exact h1
      have h1 : ¬ pat <+: c :: (u ++ w) := fun hb =>
        hpre (List.prefix_of_prefix_length_le hb
          (by simp) h.length_le)
      rw [List.cons_append, replaceFirstIn_cons_skip pat r c _ L R h1,
        replaceFirstIn_cons_skip pat r c _ L _ hpre,
        replaceFirstIn_append_left pat r hp w R u _ hu, List.cons_append]

theorem replaceFirstIn_append_right (pat r : Str) (w R : Str) :
    ∀ (u L : Str), Cut pat u w → ¬ pat <:+: u →
      replaceFirstIn pat r L (u ++ w) R = u ++ replaceFirstIn pat r (L ++ u) w R
  | [], L, _, _ => by simp
  | c :: u, L, hc, h => by
    have h1 : ¬ pat <+: c :: (u ++ w) := fun hb =>
      h (hc.prefix_left (by simp) (by simpa using hb)).isInfix
    have hc1 : Cut pat u w := Cut.drop_left (a := [c]) (by simpa using hc)
    rw [List.cons_append, replaceFirstIn_cons_skip pat r c _ L R h1,
      replaceFirstIn_append_right pat r w R u _ hc1 (not_infix_of_cons h)]
    simp only [List.append_assoc, List.singleton_append, List.cons_append, List.nil_append]

theorem replaceAllIn_append (pat r : Str) (hp : pat ≠ []) (w R : Str) :
    ∀ (k : Nat) (u L : Str), u.length = k → Cut pat u w →
      replaceAllIn pat r (u ++ w).length L (u ++ w) R
        = replaceAllIn pat r u.length L u (w ++ R)
            ++ replaceAllIn pat r w.length (L ++ u) w R := by
  intro k
  induction k using Nat.strong_induction_on with
  | _ k ih =>
    intro u L hk hc
    rcases eq_or_ne u [] with hu | hu
    · subst hu
      simp [replaceAllIn]
    by_cases hpre : pat <+: u ++ w
    · obtain ⟨t, rfl⟩ := hc.prefix_left hu hpre
      have hlen : 0 < pat.length := List.length_pos.2 hp
      have ht : t.length < k := by
        rw [← hk, List.length_append]; omega
      rw [List.append_assoc, replaceAllIn_match pat r hp _ _ _ _ le_rfl,
        replaceAllIn_match pat r hp _ _ _ _ le_rfl,
        ih t.length ht t (L ++ pat) rfl hc.drop_left]
      simp only [List.append_assoc]
    · obtain ⟨c, u, rfl⟩ := List.exists_cons_of_ne_nil hu
      have hpre1 : ¬ pat <+: c :: u := fun h => hpre (h.trans (List.prefix_append _ w))
      have hc1 : Cut pat u w := Cut.drop_left (a := [c]) (by simpa using hc)
      have hu1 : u.length < k := by rw [← hk]; simp
      rw [List.cons_append] at hpre ⊢
      rw [replaceAllIn_skip pat r hp _ c _ _ _ le_rfl hpre,
        replaceAllIn_skip pat r hp _ c _ _ _ le_rfl hpre1,
        ih u.length hu1 u (L ++ [c]) rfl hc1]
      simp only [List.append_assoc, List.singleton_append, List.cons_append, List.nil_append]

theorem cut_nil_left (pat w : Str) : Cut pat [] w := fun _ _ _ => Or.inr (Nat.zero_le _)

theorem cut_nil_right (pat u : Str) : Cut pat u [] := by
  intro x y e
  left
  have h := congrArg List.length e
  simp only [List.length_append, List.length_nil] at h
  omega

/-- A junction followed by a character that `pat` has at most in first
position is crossed by no occurrence of `pat`. -/
theorem cut_of_head_not_mem (pat u : Str) (c : Char) (w : Str) (hc : c ∉ pat.tail) :
    Cut pat u (c :: w) := by
  intro x y e
  rw [List.append_assoc] at e
  rcases List.append_eq_append_iff.1 e with ⟨a, rfl, h2⟩ | ⟨a, rfl, _⟩
  · rcases List.append_eq_append_iff.1 h2 with ⟨b, rfl, _⟩ | ⟨b, rfl, h3⟩
    · left; simp
    · cases b with
      | nil => left; simp
      | cons d b =>
        cases a with
        | nil => right; simp
        | cons f a =>
          exfalso
          apply hc
          have hd : d = c := by
            simp only [List.cons_append, List.cons.injEq] at h3
            exact h3.1.symm
          subst hd
          simp
  · right; simp

/-- A junction preceded by a character that `pat` has at most in last
position is crossed by no occurrence of `pat`. -/
theorem cut_of_getLast_not_mem (pat u : Str) (c : Char) (w : Str) (hc : c ∉ pat.dropLast) :
    Cut pat (u ++ [c]) w := by
  intro x y e
  rw [List.append_assoc] at e
  rcases List.append_eq_append_iff.1 e with ⟨a, h1, h2⟩ | ⟨a, rfl, _⟩
  · rcases List.append_eq_append_iff.1 h2 with ⟨b, rfl, _⟩ | ⟨b, rfl, h3⟩
    · left
      have h := congrArg List.length h1
      simp only [List.length_append] at h ⊢
      omega
    · cases b with
      | nil =>
        left
        have h := congrArg List.length h1
        simp only [List.length_append, List.append_nil] at h ⊢
        omega
      | cons d b =>
        rcases List.eq_nil_or_concat a with rfl | ⟨a1, f, rfl⟩
        · right
          have h := congrArg List.length h1
          simp only [List.length_append, List.append_nil] at h ⊢
          omega
        · exfalso
          apply hc
          have hf : u ++ [c] = (x ++ a1) ++ [f] := by
            rw [h1]; simp
          have hcf : c = f := by
            have := List.append_inj_right' hf rfl
            simpa using this
          subst hcf
          rw [List.dropLast_append_of_ne_nil _ (by simp)]
          simp
  · right; simp

/-! ### Blocks that a search leaves alone -/

theorem inert_of_tag (pat B : Str) (h1 : '<' ∉ pat.tail) (h2 : '>' ∉ pat.dropLast)
    (hB1 : ∃ b, B = '<' :: b) (hB2 : ∃ b, B = b ++ ['>']) (h : ¬ pat <:+: B) :
    Inert pat B := by
  refine ⟨h, fun u v => ⟨?_, ?_⟩⟩
  · obtain ⟨b, rfl⟩ := hB1
    exact cut_of_head_not_mem pat u '<' (b ++ v) h1
  · obtain ⟨b, rfl⟩ := hB2
    exact cut_of_getLast_not_mem pat b '>' v h2

theorem not_infix_wrapped (pat opn a cls : Str) (o c : Str) (x : Char)
    (hopn : opn = o ++ [x]) (hcls : cls = '<' :: c)
    (h1 : '<' ∉ pat.tail) (hx : x ∉ pat.dropLast)
    (ho : ¬ pat <:+: opn) (ha : ¬ pat <:+: a) (hc : ¬ pat <:+: cls) :
    ¬ pat <:+: opn ++ a ++ cls := by
  have c1 : Cut pat opn a := by
    rw [hopn]; exact cut_of_getLast_not_mem pat o x a hx
  have c2 : Cut pat (opn ++ a) cls := by
    rw [hcls]; exact cut_of_head_not_mem pat _ '<' c h1
  exact c2.absent (c1.absent ho ha) hc

theorem inert_wrapped (pat opn a cls : Str) (o c : Str) (x : Char)
    (hopn : opn = '<' :: o ++ [x]) (hcls : cls = '<' :: c ++ ['>'])
    (h1 : '<' ∉ pat.tail) (h2 : '>' ∉ pat.dropLast) (hx : x ∉ pat.dropLast)
    (ho : ¬ pat <:+: opn) (ha : ¬ pat <:+: a) (hc : ¬ pat <:+: cls) :
    Inert pat (opn ++ a ++ cls) := by
  apply inert_of_tag pat _ h1 h2
  · exact ⟨o ++ [x] ++ a ++ cls, by rw [hopn]; simp⟩
  · exact ⟨opn ++ a ++ ('<' :: c), by rw [hcls]; simp⟩
  · exact not_infix_wrapped pat opn a cls ('<' :: o) (c ++ ['>']) x
      hopn hcls h1 hx ho ha hc

theorem Inert.infix_sides {pat B u v : Str} (hB : Inert pat B) (h : pat <:+: u ++ (B ++ v)) :
    pat <:+: u ∨ pat <:+: v := by
  rcases (hB.2 u v).1.infix_or h with h1 | h1
  · exact Or.inl h1
  · rcases (hB.2 u v).2.infix_or h1 with h2 | h2
    · exact absurd h2 hB.1
    · exact Or.inr h2

theorem replaceAllIn_frame (pat r : Str) (hp : pat ≠ []) (B : Str) (hB : Inert pat B)
    (u v L R : Str) :
    replaceAllIn pat r (u ++ (B ++ v)).length L (u ++ (B ++ v)) R
      = replaceAllIn pat r u.length L u (B ++ v ++ R)
          ++ (B ++ replaceAllIn pat r v.length (L ++ u ++ B) v R) := by
  rw [replaceAllIn_append pat r hp (B ++ v) R _ u L rfl (hB.2 u v).1,
    replaceAllIn_append pat r hp v R _ B (L ++ u) rfl (hB.2 u v).2,
    replaceAllIn_of_absent pat r _ B _ _ hB.1]

theorem replaceAllIn_ctx (pat r : Str) (h : '$' ∉ r) :
    ∀ (n : Nat) (s L R L1 R1 : Str),
      replaceAllIn pat r n L s R = replaceAllIn pat r n L1 s R1
  | 0, s, L, R, L1, R1 => by simp [replaceAllIn]
  | n + 1, [], L, R, L1, R1 => by simp [replaceAllIn]
  | n + 1, c :: cs, L, R, L1, R1 => by
    simp only [replaceAllIn, getSubstitution_of_not_mem _ _ _ r h]
    rw [replaceAllIn_ctx pat r h n _ (L ++ pat) R (L1 ++ pat) R1,
      replaceAllIn_ctx pat r h n cs (L ++ [c]) R (L1 ++ [c]) R1]

theorem replaceFirstIn_ctx (pat r : Str) (h : '$' ∉ r) :
    ∀ (s L R L1 R1 : Str), replaceFirstIn pat r L s R = replaceFirstIn pat r L1 s R1
  | [], L, R, L1, R1 => by
    simp only [replaceFirstIn, getSubstitution_of_not_mem _ _ _ r h]
  | c :: cs, L, R, L1, R1 => by
    simp only [replaceFirstIn, getSubstitution_of_not_mem _ _ _ r h]
    rw [replaceFirstIn_ctx pat r h cs (L ++ [c]) R (L1 ++ [c]) R1]

theorem replaceAllIn_keeps (pat r : Str) (hp : pat ≠ []) (B : Str) (hB : Inert pat B)
    (v L R : Str) (h : ∃ m n, v = m ++ (B ++ n)) :
    ∃ m n, replaceAllIn pat r v.length L v R = m ++ (B ++ n) := by
  obtain ⟨m, n, rfl⟩ := h
  exact ⟨_, _, replaceAllIn_frame pat r hp B hB m n L R⟩

theorem replaceFirstIn_keeps (pat r : Str) (hp : pat ≠ []) (B : Str) (hB : Inert pat B)
    (v L R : Str) (h : ∃ m n, v = m ++ (B ++ n)) :
    ∃ m n, replaceFirstIn pat r L v R = m ++ (B ++ n) := by
  obtain ⟨m, n, rfl⟩ := h
  by_cases hm : pat <:+: m
  · exact ⟨_, _, replaceFirstIn_append_left pat r hp (B ++ n) R m L hm⟩
  · refine ⟨m, replaceFirstIn pat r (L ++ m ++ B) n R, ?_⟩
    rw [replaceFirstIn_append_right pat r (B ++ n) R m L (hB.2 m n).1 hm,
      replaceFirstIn_append_right pat r n R B (L ++ m) (hB.2 m n).2 hB.1]

/-- A global replacement works on the two sides of a block it leaves alone. -/
theorem replaceAll_frame (pat r : Str) (hp : pat ≠ []) (B : Str) (hB : Inert pat B)
    (u v : Str) :
    ∃ u1 v1, replaceAll pat r (u ++ (B ++ v)) = u1 ++ (B ++ v1)
      ∧ ('$' ∉ r → u1 = replaceAll pat r u ∧ v1 = replaceAll pat r v)
      ∧ (∀ B2, Inert pat B2 → (∃ m n, v = m ++ (B2 ++ n)) → ∃ m n, v1 = m ++ (B2 ++ n)) := by
  refine ⟨replaceAllIn pat r u.length [] u (B ++ v ++ []),
    replaceAllIn pat r v.length ([] ++ u ++ B) v [], ?_, ?_, ?_⟩
  · exact replaceAllIn_frame pat r hp B hB u v [] []
  · intro h
    exact ⟨replaceAllIn_ctx pat r h _ _ _ _ _ _, replaceAllIn_ctx pat r h _ _ _ _ _ _⟩
  · intro B2 hB2 hv
    exact replaceAllIn_keeps pat r hp B2 hB2 v _ _ hv

/-- A first-occurrence replacement works on one side of a block it leaves
alone: on the left side when the pattern occurs there, else on the right. -/
theorem replace_frame (pat r : Str) (hp : pat ≠ []) (B : Str) (hB : Inert pat B)
    (u v : Str) :
    ∃ u1 v1, replace pat r (u ++ (B ++ v)) = u1 ++ (B ++ v1)
      ∧ ('$' ∉ r → u1 = replace pat r u ∧ (pat <:+: u → v1 = v)
          ∧ (¬ pat <:+: u → v1 = replace pat r v))
      ∧ (∀ B2, Inert pat B2 → (∃ m n, v = m ++ (B2 ++ n)) → ∃ m n, v1 = m ++ (B2 ++ n)) := by
  by_cases hu : pat <:+: u
  · refine ⟨replaceFirstIn pat r [] u (B ++ v ++ []), v, ?_, ?_, ?_⟩
    · exact replaceFirstIn_append_left pat r hp (B ++ v) [] u [] hu
    · intro h
      exact ⟨replaceFirstIn_ctx pat r h _ _ _ _ _, fun _ => rfl, fun h1 => absurd hu h1⟩
    · intro B2 _ hv
      exact hv
  · refine ⟨u, replaceFirstIn pat r ([] ++ u ++ B) v [], ?_, ?_, ?_⟩
    · unfold replace
      rw [replaceFirstIn_append_right pat r (B ++ v) [] u [] (hB.2 u v).1 hu,
        replaceFirstIn_append_right pat r v [] B ([] ++ u) (hB.2 u v).2 hB.1]
    · intro h
      exact ⟨(replace_of_absent pat r u hu).symm, fun h1 => absurd h1 hu,
        fun _ => replaceFirstIn_ctx pat r h _ _ _ _ _⟩
    · intro B2 hB2 hv
      exact replaceFirstIn_keeps pat r hp B2 hB2 v _ _ hv

/-- The first-occurrence replacement, when the pattern occurs: the document is
cut at the first occurrence and the expanded replacement text is put there. -/
theorem replaceFirstIn_spec (pat r : Str) (hp : pat ≠ []) :
    ∀ (s L R : Str), pat <:+: s →
      ∃ b a, s = b ++ pat ++ a ∧ IsFirstOccurrence pat b a
        ∧ replaceFirstIn pat r L s R = b ++ getSubstitution pat (L ++ b) (a ++ R) r ++ a
  | [], _, _, h => absurd (List.infix_nil.1 h) hp
  | c :: s, L, R, h => by
    by_cases hpre : pat <+: c :: s
    · obtain ⟨a, ha⟩ := hpre
      refine ⟨[], a, by simpa using ha.symm, fun x y _ => Nat.zero_le _, ?_⟩
      rw [replaceFirstIn_cons_match pat r c s L R ⟨a, ha⟩, ← ha]
      simp
    · have hs : pat <:+: s := by
        rcases List.infix_cons_iff.1 h with h1 | h1
        · exact absurd h1 hpre
        · exact h1
      obtain ⟨b, a, rfl, hf, he⟩ := replaceFirstIn_spec pat r hp s (L ++ [c]) R hs
      refine ⟨c :: b, a, by simp, ?_, ?_⟩
      · intro x y e
        cases x with
        | nil =>
          exfalso
          apply hpre
          exact ⟨y, by simpa using e⟩
        | cons d x =>
          simp only [List.cons_append, List.cons.injEq] at e
          have := hf x y (by simpa using e.2)
          simpa using this
      · rw [replaceFirstIn_cons_skip pat r c _ L R hpre, he]
        simp

theorem replaceFirstIn_first (pat r : Str) (hp : pat ≠ []) (pre post L R : Str)
    (h : IsFirstOccurrence pat pre post) :
    replaceFirstIn pat r L (pre ++ pat ++ post) R
      = pre ++ getSubstitution pat (L ++ pre) (post ++ R) r ++ post := by
  have hlen : 0 < pat.length := List.length_pos.2 hp
  have hn : ¬ pat <:+: pre := by
    rintro ⟨x, y, e⟩
    have h1 := h x (y ++ pat ++ post) (by rw [← e]; simp)
    have h2 := congrArg List.length e
    simp only [List.length_append] at h2
    omega
  have hc : Cut pat pre (pat ++ post) := by
    intro x y e
    right
    exact h x y (by rw [e]; simp)
  obtain ⟨c, q, rfl⟩ := List.exists_cons_of_ne_nil hp
  rw [List.append_assoc, replaceFirstIn_append_right (c :: q) r _ R pre L hc hn,
    List.cons_append,
    replaceFirstIn_cons_match (c :: q) r c _ _ R (by simp)]
  simp

/-! ### The three SEO passes around a block -/

theorem injectHTML_eq_seoPasses (t : Str) (p : Payload) :
    injectHTML t p = seoPasses p.seo (afterBody t p) := rfl

theorem seoPasses_frame (seo : Seo) (B : Str) (hB : SeoInert B) (u v : Str) :
    ∃ u1 v1, seoPasses seo (u ++ (B ++ v)) = u1 ++ (B ++ v1)
      ∧ ('$' ∉ seo.title → '$' ∉ seo.description → '$' ∉ seo.keywords →
          u1 = seoPasses seo u ∧ v1 = seoPasses seo v)
      ∧ (∀ B2, SeoInert B2 → (∃ m n, v = m ++ (B2 ++ n)) → ∃ m n, v1 = m ++ (B2 ++ n)) := by
  obtain ⟨u1, v1, e1, f1, k1⟩ :=
    replaceAll_frame seoTitleToken seo.title (by decide) B hB.1 u v
  obtain ⟨u2, v2, e2, f2, k2⟩ :=
    replaceAll_frame seoDescriptionToken seo.description (by decide) B hB.2.1 u1 v1
  obtain ⟨u3, v3, e3, f3, k3⟩ :=
    replaceAll_frame seoKeywordsToken seo.keywords (by decide) B hB.2.2 u2 v2
  refine ⟨u3, v3, ?_, ?_, ?_⟩
  · unfold seoPasses
    rw [e1, e2, e3]
  · intro h1 h2 h3
    obtain ⟨a1, b1⟩ := f1 h1
    obtain ⟨a2, b2⟩ := f2 h2
    obtain ⟨a3, b3⟩ := f3 h3
    unfold seoPasses
    rw [a3, a2, a1, b3, b2, b1]
    exact ⟨rfl, rfl⟩
  · intro B2 hB2 hv
    exact k3 B2 hB2.2.2 (k2 B2 hB2.2.1 (k1 B2 hB2.1 hv))

theorem inert_script (pat d : Str) (h1 : '<' ∉ pat.tail) (h2 : '>' ∉ pat.dropLast)
    (hx : ' ' ∉ pat.dropLast) (ho : ¬ pat <:+: scriptOpen) (hc : ¬ pat <:+: scriptClose)
    (hd : ¬ pat <:+: d) : Inert pat (scriptOpen ++ d ++ scriptClose) :=
  inert_wrapped pat scriptOpen d scriptClose "script>window.__INITIAL_DATA__ =".toList
    "/script></body".toList ' ' (by decide) (by decide) h1 h2 hx ho hd hc

theorem inert_mount (pat a : Str) (h1 : '<' ∉ pat.tail) (h2 : '>' ∉ pat.dropLast)
    (ho : ¬ pat <:+: rootOpen) (hc : ¬ pat <:+: divClose)
    (ha : ¬ pat <:+: a) : Inert pat (rootOpen ++ a ++ divClose) :=
  inert_wrapped pat rootOpen a divClose "div id=\"root\"".toList
    "/div".toList '>' (by decide) (by decide) h1 h2 h2 ho ha hc

theorem seoInert_script (d : Str) (h1 : ¬ seoTitleToken <:+: d)
    (h2 : ¬ seoDescriptionToken <:+: d) (h3 : ¬ seoKeywordsToken <:+: d) :
    SeoInert (scriptOpen ++ d ++ scriptClose) :=
  ⟨inert_script seoTitleToken d (by decide) (by decide) (by decide) (by decide) (by decide) h1,
    inert_script seoDescriptionToken d (by decide) (by decide) (by decide) (by decide)
      (by decide) h2,
    inert_script seoKeywordsToken d (by decide) (by decide) (by decide) (by decide)
      (by decide) h3⟩

theorem seoInert_mount (a : Str) (h1 : ¬ seoTitleToken <:+: a)
    (h2 : ¬ seoDescriptionToken <:+: a) (h3 : ¬ seoKeywordsToken <:+: a) :
    SeoInert (rootOpen ++ a ++ divClose) :=
  ⟨inert_mount seoTitleToken a (by decide) (by decide) (by decide) (by decide) h1,
    inert_mount seoDescriptionToken a (by decide) (by decide) (by decide) (by decide) h2,
    inert_mount seoKeywordsToken a (by decide) (by decide) (by decide) (by decide) h3⟩

theorem inert_rootMarker (pat : Str) (h1 : '<' ∉ pat.tail) (h2 : '>' ∉ pat.dropLast)
    (h : ¬ pat <:+: rootMarker) : Inert pat rootMarker :=
  inert_of_tag pat rootMarker h1 h2 ⟨"div id=\"root\"></div>".toList, by decide⟩
    ⟨"<div id=\"root\"></div".toList, by decide⟩ h

theorem seoInert_rootMarker : SeoInert rootMarker :=
  ⟨inert_rootMarker seoTitleToken (by decide) (by decide) (by decide),
    inert_rootMarker seoDescriptionToken (by decide) (by decide) (by decide),
    inert_rootMarker seoKeywordsToken (by decide) (by decide) (by decide)⟩

theorem inert_body_rootMarker : Inert bodyClose rootMarker :=
  inert_rootMarker bodyClose (by decide) (by decide) (by decide)

theorem dollar_not_mem_script (d : Str) (hd : '$' ∉ d) :
    '$' ∉ scriptOpen ++ d ++ scriptClose := by
  simp only [List.mem_append, not_or]
  exact ⟨⟨by decide, hd⟩, by decide⟩

theorem dollar_not_mem_mount (a : Str) (ha : '$' ∉ a) :
    '$' ∉ rootOpen ++ a ++ divClose := by
  simp only [List.mem_append, not_or]
  exact ⟨⟨by decide, ha⟩, by decide⟩

/-- The root-mount substitution does not remove an occurrence of `</body>`. -/
theorem bodyClose_infix_afterRoot (t : Str) (p : Payload) (hb : bodyClose <:+: t) :
    bodyClose <:+: afterRoot t p := by
  by_cases hr : rootMarker <:+: t
  · obtain ⟨b, a, rfl, _, he⟩ :=
      replaceFirstIn_spec rootMarker (rootOpen ++ p.appHTML ++ divClose) (by decide) t [] [] hr
    unfold afterRoot replace
    rw [he]
    rw [List.append_assoc] at hb
    rcases inert_body_rootMarker.infix_sides hb with h1 | h1
    · exact h1.trans ((List.prefix_append b _).isInfix.trans (List.prefix_append _ a).isInfix)
    · exact h1.trans (List.suffix_append _ a).isInfix
  · unfold afterRoot
    rw [replace_of_absent _ _ _ hr]
    exact hb

theorem IsFirstOccurrence.absent_before {pat pre post : Str} (h : IsFirstOccurrence pat pre post)
    (hp : pat ≠ []) : ¬ pat <:+: pre := by
  have hlen : 0 < pat.length := List.length_pos.2 hp
  rintro ⟨x, y, e⟩
  have h1 := h x (y ++ pat ++ post) (by rw [← e]; simp)
  have h2 := congrArg List.length e
  simp only [List.length_append] at h2
  omega

/-- A test for the first occurrence that can be evaluated: the pattern does not
occur in the text before it extended by all but the last character of the
pattern. -/
theorem isFirstOccurrence_of_absent (pat pre post : Str)
    (h : ¬ pat <:+: pre ++ pat.dropLast) : IsFirstOccurrence pat pre post := by
  intro x y e
  by_contra hlt
  apply h
  rcases List.eq_nil_or_concat pat with hp | ⟨q, c, hp⟩
  · subst hp
    exact ⟨pre, [], by simp⟩
  · rw [List.concat_eq_append] at hp
    subst hp
    have hx : x ++ (q ++ [c]) <+: pre ++ (q ++ [c]) ++ post := ⟨y, e⟩
    have hq : pre ++ q <+: pre ++ (q ++ [c]) ++ post := ⟨[c] ++ post, by simp⟩
    have hle : (x ++ (q ++ [c])).length ≤ (pre ++ q).length := by
      simp only [List.length_append, List.length_singleton]
      omega
    obtain ⟨z, hz⟩ := List.prefix_of_prefix_length_le hx hq hle
    rw [List.dropLast_concat]
    exact ⟨x, z, hz⟩

/-! ### A global replacement on a document cut at the pattern's occurrences -/

theorem gapFor_of_gap (pat g : Str) (hg : Gap g) (hsub : ∀ c, c ∈ pat → c ∈ tokenChars)
    (hn : Gap g → ¬ pat <:+: g) : GapFor pat g := by
  obtain ⟨h1, h2, _⟩ := id hg
  refine ⟨?_, ?_, hn hg⟩
  · cases g with
    | nil => exact absurd (by decide) h1
    | cons c r =>
      exact ⟨c, r, rfl, fun hc => h1 (hsub c (List.mem_of_mem_tail hc))⟩
  · rcases List.eq_nil_or_concat g with rfl | ⟨r, c, rfl⟩
    · exact absurd (by decide) h2
    · rw [List.concat_eq_append] at h2 ⊢
      rw [List.getLastD_concat] at h2
      exact ⟨r, c, rfl, fun hc => h2 (hsub c (List.mem_of_mem_dropLast hc))⟩

theorem replaceAllIn_weave {α : Type} (pat r : Str) (hp : pat ≠ []) (hr : '$' ∉ r)
    (blk blk1 : α → Str) (R : Str) :
    ∀ (segs : List (α × Str)) (g0 L : Str),
      (g0 = [] ∨ GapFor pat g0) →
      (∀ s ∈ segs, GapFor pat s.2 ∧
        ((blk s.1 = pat ∧ blk1 s.1 = r) ∨ (¬ pat <:+: blk s.1 ∧ blk1 s.1 = blk s.1))) →
      replaceAllIn pat r (weave blk g0 segs).length L (weave blk g0 segs) R
        = weave blk1 g0 segs
  | [], g0, L, hg0, _ => by
    have hn : ¬ pat <:+: g0 := by
      rcases hg0 with rfl | h
      · exact fun h => hp (List.infix_nil.1 h)
      · exact h.2.2
    simp only [weave]
    exact replaceAllIn_of_absent pat r _ g0 L R hn
  | (k, g) :: rest, g0, L, hg0, hs => by
    have hn : ¬ pat <:+: g0 := by
      rcases hg0 with rfl | h
      · exact fun h => hp (List.infix_nil.1 h)
      · exact h.2.2
    have hcut : Cut pat g0 (blk k ++ weave blk g rest) := by
      rcases hg0 with rfl | h
      · exact cut_nil_left _ _
      · obtain ⟨q, c, rfl, hc⟩ := h.2.1
        exact cut_of_getLast_not_mem pat q c _ hc
    obtain ⟨hg, hk⟩ := hs (k, g) (List.mem_cons_self _ _)
    have ih := fun L1 => replaceAllIn_weave pat r hp hr blk blk1 R rest g L1 (Or.inr hg)
      (fun s h => hs s (List.mem_cons_of_mem _ h))
    simp only [weave, List.append_assoc]
    rw [replaceAllIn_append pat r hp _ R _ g0 L rfl hcut,
      replaceAllIn_of_absent pat r _ g0 L _ hn]
    congr 1
    rcases hk with ⟨hb, hb1⟩ | ⟨hb, hb1⟩
    · simp only at hb hb1
      rw [hb, hb1, replaceAllIn_match pat r hp _ _ _ _ le_rfl,
        getSubstitution_of_not_mem _ _ _ r hr, ih]
    · simp only at hb hb1
      have hcut2 : Cut pat (blk k) (weave blk g rest) := by
        obtain ⟨c, q, hgc, hc⟩ := hg.1
        simp only at hgc
        subst hgc
        cases rest with
        | nil => exact cut_of_head_not_mem pat _ c q hc
        | cons s rest =>
          obtain ⟨k2, g2⟩ := s
          simp only [weave, List.cons_append, List.append_assoc]
          exact cut_of_head_not_mem pat _ c _ hc
      rw [hb1, replaceAllIn_append pat r hp _ R _ (blk k) _ rfl hcut2,
        replaceAllIn_of_absent pat r _ (blk k) _ _ hb, ih]

theorem replaceAll_weave {α : Type} (pat r : Str) (hp : pat ≠ []) (hr : '$' ∉ r)
    (blk blk1 : α → Str) (segs : List (α × Str)) (g0 : Str)
    (hg0 : g0 = [] ∨ GapFor pat g0)
    (hs : ∀ s ∈ segs, GapFor pat s.2 ∧
        ((blk s.1 = pat ∧ blk1 s.1 = r) ∨ (¬ pat <:+: blk s.1 ∧ blk1 s.1 = blk s.1))) :
    replaceAll pat r (weave blk g0 segs) = weave blk1 g0 segs :=
  replaceAllIn_weave pat r hp hr blk blk1 [] segs g0 [] hg0 hs

set_option maxRecDepth 100000

/-! ### The chain of `injectHTML` -/

theorem injectHTML_eq (t : Str) (p : Payload) :
    injectHTML t p = replaceAll seoKeywordsToken p.seo.keywords (afterDescription t p) := rfl

/-! ### The scenario of the specification -/

/-- C5: on the template `<html><body><div id="root"></div></body></html>` and
the payload with markup `<p>Hi</p>`, state `[]` and SEO fields T, D, K,
`injectHTML` returns the document with the markup inside the mount element and
the hydration script before `</body>`; both quoted fragments occur in it. -/
theorem injectHTML_scenario :
    injectHTML "<html><body><div id=\"root\"></div></body></html>".toList
        ⟨"<p>Hi</p>".toList, "[]".toList, ⟨"T".toList, "D".toList, "K".toList⟩⟩
      = ("<html><body><div id=\"root\"><p>Hi</p></div>"
          ++ "<script>window.__INITIAL_DATA__ = []</script></body></html>").toList
    ∧ "<div id=\"root\"><p>Hi</p></div>".toList
        <:+: injectHTML "<html><body><div id=\"root\"></div></body></html>".toList
          ⟨"<p>Hi</p>".toList, "[]".toList, ⟨"T".toList, "D".toList, "K".toList⟩⟩
    ∧ "<script>window.__INITIAL_DATA__ = []</script></body>".toList
        <:+: injectHTML "<html><body><div id=\"root\"></div></body></html>".toList
          ⟨"<p>Hi</p>".toList, "[]".toList, ⟨"T".toList, "D".toList, "K".toList⟩⟩ := by
  have h : injectHTML "<html><body><div id=\"root\"></div></body></html>".toList
        ⟨"<p>Hi</p>".toList, "[]".toList, ⟨"T".toList, "D".toList, "K".toList⟩⟩
      = ("<html><body><div id=\"root\"><p>Hi</p></div>"
          ++ "<script>window.__INITIAL_DATA__ = []</script></body></html>").toList := by
    decide
  refine ⟨h, ?_, ?_⟩
  · rw [h]
    exact ⟨"<html><body>".toList,
      "<script>window.__INITIAL_DATA__ = []</script></body></html>".toList, by decide⟩
  · rw [h]
    exact ⟨"<html><body><div id=\"root\"><p>Hi</p></div>".toList, "</html>".toList, by decide⟩

/-! ### The request handlers -/

/-- C6: in the root handler, whenever the upstream request fails, or the
serialisation or the rendering of the fetched products throws, the response is
status 500 with the fixed body "An error occurred during server-side
rendering."; the response is this same value whatever the error and whatever
the state of the template. -/
theorem rootHandler_failure {ε Products : Type} (fetched : Except ε Products)
    (stringify render : Products → Except ε Str) (template : Option Str)
    (h : (∃ e, fetched = .error e) ∨
      ∃ ps, fetched = .ok ps ∧
        ((∃ e, stringify ps = .error e) ∨ ∃ e, render ps = .error e)) :
    rootHandler fetched stringify render template
      = ⟨500, "An error occurred during server-side rendering.".toList⟩ := by
  rcases h with ⟨e, rfl⟩ | ⟨ps, rfl, h⟩
  · rfl
  · rcases h with ⟨e, he⟩ | ⟨e, he⟩
    · simp only [rootHandler, he]
      rfl
    · cases hs : stringify ps with
      | error e1 =>
        simp only [rootHandler, hs]
        rfl
      | ok d =>
        simp only [rootHandler, hs, he]
        rfl

theorem rootHandler_failure_witness :
    rootHandler (Except.error "ECONNREFUSED".toList : Except Str Nat)
        (fun _ => Except.ok []) (fun _ => Except.ok []) (some "<html></html>".toList)
      = ⟨500, "An error occurred during server-side rendering.".toList⟩ :=
  rootHandler_failure _ _ _ _ (Or.inl ⟨_, rfl⟩)

/-- C7 as stated fails: with the template missing and the upstream request
failing, the body is the generic message, which does not name `index.html`. -/
theorem rootHandler_missing_template_counterexample :
    (rootHandler (Except.error () : Except Unit Unit)
        (fun _ => Except.ok []) (fun _ => Except.ok []) none).body
      = "An error occurred during server-side rendering.".toList
    ∧ (rootHandler (Except.error () : Except Unit Unit)
        (fun _ => Except.ok []) (fun _ => Except.ok []) none).body
      ≠ "❌ Build index.html not found. Run `npm run build` in frontend.".toList := by
  constructor
  · rfl
  · decide

/-- C7 (amended): in the root handler with the template missing the status is
always 500, and when the upstream request, the serialisation and the rendering
have succeeded the body is the message naming `index.html`, which differs from
the generic error message. -/
theorem rootHandler_missing_template {ε Products : Type} (fetched : Except ε Products)
    (stringify render : Products → Except ε Str) :
    (rootHandler fetched stringify render none).status = 500
    ∧ ∀ ps d a, fetched = .ok ps → stringify ps = .ok d → render ps = .ok a →
        (rootHandler fetched stringify render none).body
            = "❌ Build index.html not found. Run `npm run build` in frontend.".toList
          ∧ "index.html".toList <:+: (rootHandler fetched stringify render none).body
          ∧ (rootHandler fetched stringify render none).body ≠ ssrErrorMessage := by
  refine ⟨?_, ?_⟩
  · cases fetched with
    | error e => rfl
    | ok ps =>
      cases hs : stringify ps with
      | error e => simp only [rootHandler, hs]
      | ok d =>
        cases hr : render ps with
        | error e => simp only [rootHandler, hs, hr]
        | ok a => simp only [rootHandler, hs, hr]
  · intro ps d a hf hs hr
    subst hf
    have hb : (rootHandler (Except.ok ps) stringify render none).body
        = "❌ Build index.html not found. Run `npm run build` in frontend.".toList := by
      simp only [rootHandler, hs, hr]
      rfl
    rw [hb]
    refine ⟨rfl, ⟨"❌ Build ".toList,
      " not found. Run `npm run build` in frontend.".toList, by decide⟩, by decide⟩

theorem rootHandler_missing_template_witness :
    (rootHandler (Except.ok 7 : Except Str Nat)
        (fun _ => Except.ok "[]".toList) (fun _ => Except.ok "<p>Hi</p>".toList) none).body
      = "❌ Build index.html not found. Run `npm run build` in frontend.".toList :=
  ((rootHandler_missing_template (Except.ok 7 : Except Str Nat)
      (fun _ => Except.ok "[]".toList) (fun _ => Except.ok "<p>Hi</p>".toList)).2
    7 "[]".toList "<p>Hi</p>".toList rfl rfl rfl).1

/-- C8: the fallback handler answers, for every request path, status 200 with
`injectHTML` of the template on the empty payload (no markup, state `[]`, the
fallback SEO descriptor) when the template is present, and status 404 with the
body "404 - Page not found" when it is absent; the path plays no part. -/
theorem fallbackHandler_response (path : Str) (t : Str) :
    fallbackHandler path (some t)
        = ⟨200, injectHTML t ⟨[], "[]".toList,
            ⟨"Shop Smart – Explore Products".toList,
              "Your one-stop shop for the latest and greatest products.".toList,
              "ecommerce, shopping, deals".toList⟩⟩⟩
    ∧ fallbackHandler path none = ⟨404, "404 - Page not found".toList⟩
    ∧ ∀ (other : Str) (template : Option Str),
        fallbackHandler path template = fallbackHandler other template := by
  refine ⟨rfl, rfl, ?_⟩
  intro other template
  cases template <;> rfl

/-- C9: in the root handler, when the upstream request returns the products,
their serialisation and rendering succeed and the template is present, the
response is status 200 with body `injectHTML` of the template on the rendered
markup, the serialised products and the fixed home-page SEO descriptor. -/
theorem rootHandler_success {ε Products : Type} (fetched : Except ε Products)
    (stringify render : Products → Except ε Str) (t : Str)
    (ps : Products) (d a : Str)
    (hf : fetched = .ok ps) (hs : stringify ps = .ok d) (hr : render ps = .ok a) :
    rootHandler fetched stringify render (some t)
      = ⟨200, injectHTML t ⟨a, d,
          ⟨"Discover Our Products – Shop Smart".toList,
            "Explore trending items from FakeStore API — discover, filter, and shop smarter.".toList,
            "ecommerce, products, online store, fashion, shopping".toList⟩⟩⟩ := by
  subst hf
  simp only [rootHandler, hs, hr]
  rfl

theorem rootHandler_success_witness :
    rootHandler (Except.ok 7 : Except Str Nat)
        (fun _ => Except.ok "[]".toList) (fun _ => Except.ok "<p>Hi</p>".toList)
        (some "<html></html>".toList)
      = ⟨200, injectHTML "<html></html>".toList ⟨"<p>Hi</p>".toList, "[]".toList,
          ⟨"Discover Our Products – Shop Smart".toList,
            "Explore trending items from FakeStore API — discover, filter, and shop smarter.".toList,
            "ecommerce, products, online store, fashion, shopping".toList⟩⟩⟩ :=
  rootHandler_success _ _ _ _ 7 _ _ rfl rfl rfl

/-! ### The hydration script is not escaped -/

/-- C10: there are a template containing `</body>` and a serialised state
containing `</script>` for which the output has the script opening followed at
once by the state as given and then by the closing of the script, so the
`</script>` of the state lies inside the injected script block. -/
theorem injectHTML_script_not_escaped :
    ∃ (t s : Str) (p : Payload) (pre post : Str),
      bodyClose <:+: t ∧ "</script>".toList <:+: s ∧ p.initialData = s ∧
        injectHTML t p
          = pre ++ "<script>window.__INITIAL_DATA__ = ".toList ++ s
              ++ "</script></body>".toList ++ post := by
  refine ⟨"<html><body><div id=\"root\"></div></body></html>".toList,
    "[\"</script><script>alert(1)</script>\"]".toList,
    ⟨"<p>Hi</p>".toList, "[\"</script><script>alert(1)</script>\"]".toList,
      ⟨"T".toList, "D".toList, "K".toList⟩⟩,
    "<html><body><div id=\"root\"><p>Hi</p></div>".toList, "</html>".toList, ?_, ?_, rfl, ?_⟩
  · exact ⟨"<html><body><div id=\"root\"></div>".toList, "</html>".toList, by decide⟩
  · exact ⟨"[\"".toList, "<script>alert(1)</script>\"]".toList, by decide⟩
  · decide

/-! ### Absent markers -/

/-- C4 as stated fails: the template below does not contain `</body>`, yet the
closing-body substitution is carried out, on the `</body>` that the rendered
markup brought into the document. -/
theorem injectHTML_absent_marker_counterexample :
    ¬ bodyClose <:+: "<div id=\"root\"></div>".toList
    ∧ injectHTML "<div id=\"root\"></div>".toList
        ⟨"</body>".toList, "[]".toList, ⟨"T".toList, "D".toList, "K".toList⟩⟩
      = "<div id=\"root\"><script>window.__INITIAL_DATA__ = []</script></body></div>".toList
    ∧ afterBody "<div id=\"root\"></div>".toList
        ⟨"</body>".toList, "[]".toList, ⟨"T".toList, "D".toList, "K".toList⟩⟩
      ≠ afterRoot "<div id=\"root\"></div>".toList
        ⟨"</body>".toList, "[]".toList, ⟨"T".toList, "D".toList, "K".toList⟩⟩ := by
  refine ⟨by decide, by decide, by decide⟩

/-- C4 (amended): `injectHTML` is a total function, and each of its five
substitutions returns the document it is applied to when its marker is absent
from that document (the template for the first one, the template as rewritten
by the earlier substitutions for the others); in particular a template with
none of the five markers is returned as it is. -/
theorem injectHTML_absent_marker (t : Str) (p : Payload) :
    (¬ rootMarker <:+: t → afterRoot t p = t)
    ∧ (¬ bodyClose <:+: afterRoot t p → afterBody t p = afterRoot t p)
    ∧ (¬ seoTitleToken <:+: afterBody t p → afterTitle t p = afterBody t p)
    ∧ (¬ seoDescriptionToken <:+: afterTitle t p → afterDescription t p = afterTitle t p)
    ∧ (¬ seoKeywordsToken <:+: afterDescription t p → injectHTML t p = afterDescription t p)
    ∧ (¬ rootMarker <:+: t → ¬ bodyClose <:+: t → ¬ seoTitleToken <:+: t →
        ¬ seoDescriptionToken <:+: t → ¬ seoKeywordsToken <:+: t → injectHTML t p = t) := by
  refine ⟨fun h => replace_of_absent _ _ _ h, fun h => replace_of_absent _ _ _ h,
    fun h => replaceAll_of_absent _ _ _ h, fun h => replaceAll_of_absent _ _ _ h,
    fun h => replaceAll_of_absent _ _ _ h, ?_⟩
  intro h1 h2 h3 h4 h5
  have e1 : afterRoot t p = t := replace_of_absent _ _ _ h1
  have e2 : afterBody t p = t := by
    unfold afterBody; rw [e1]; exact replace_of_absent _ _ _ h2
  have e3 : afterTitle t p = t := by
    unfold afterTitle; rw [e2]; exact replaceAll_of_absent _ _ _ h3
  have e4 : afterDescription t p = t := by
    unfold afterDescription; rw [e3]; exact replaceAll_of_absent _ _ _ h4
  rw [injectHTML_eq, e4]
  exact replaceAll_of_absent _ _ _ h5

theorem injectHTML_absent_marker_witness :
    injectHTML "<html><p>static page</p></html>".toList
        ⟨"<p>Hi</p>".toList, "[]".toList, ⟨"T".toList, "D".toList, "K".toList⟩⟩
      = "<html><p>static page</p></html>".toList :=
  (injectHTML_absent_marker "<html><p>static page</p></html>".toList
    ⟨"<p>Hi</p>".toList, "[]".toList, ⟨"T".toList, "D".toList, "K".toList⟩⟩).2.2.2.2.2
    (by decide) (by decide) (by decide) (by decide) (by decide)

/-! ### The hydration script -/

/-- C2 as stated fails.  With the state `["$$"]` the script holds `["$"]`: the
replacement text of `replace` is expanded, `$$` standing for one `$`.  With the
state `["__SEO_TITLE__"]` the script holds `["T"]`: the later SEO pass rewrites
the state that has just been put in. -/
theorem injectHTML_hydration_counterexample :
    bodyClose <:+: "<body></body>".toList
    ∧ injectHTML "<body></body>".toList
        ⟨[], "[\"$$\"]".toList, ⟨"T".toList, "D".toList, "K".toList⟩⟩
      = "<body><script>window.__INITIAL_DATA__ = [\"$\"]</script></body>".toList
    ∧ ¬ ("<script>window.__INITIAL_DATA__ = ".toList ++ "[\"$$\"]".toList
          ++ "</script></body>".toList)
        <:+: injectHTML "<body></body>".toList
          ⟨[], "[\"$$\"]".toList, ⟨"T".toList, "D".toList, "K".toList⟩⟩
    ∧ injectHTML "<body></body>".toList
        ⟨[], "[\"__SEO_TITLE__\"]".toList, ⟨"T".toList, "D".toList, "K".toList⟩⟩
      = "<body><script>window.__INITIAL_DATA__ = [\"T\"]</script></body>".toList := by
  refine ⟨by decide, by decide, by decide, by decide⟩

/-- C2 (amended): for every template that contains `</body>` and every payload
whose serialised state contains no `$` and none of the three SEO tokens, the
output contains the hydration script whose content is exactly the serialised
state, followed by `</body>`. -/
theorem injectHTML_hydration_script (t : Str) (p : Payload) (hb : bodyClose <:+: t)
    (hd : '$' ∉ p.initialData) (h1 : ¬ seoTitleToken <:+: p.initialData)
    (h2 : ¬ seoDescriptionToken <:+: p.initialData)
    (h3 : ¬ seoKeywordsToken <:+: p.initialData) :
    ∃ pre post, injectHTML t p
      = pre ++ "<script>window.__INITIAL_DATA__ = ".toList ++ p.initialData
          ++ "</script></body>".toList ++ post := by
  obtain ⟨b, a, hba, _, he⟩ :=
    replaceFirstIn_spec bodyClose (scriptOpen ++ p.initialData ++ scriptClose) (by decide)
      (afterRoot t p) [] [] (bodyClose_infix_afterRoot t p hb)
  rw [getSubstitution_of_not_mem _ _ _ _ (dollar_not_mem_script _ hd)] at he
  have e2 : afterBody t p = b ++ (scriptOpen ++ p.initialData ++ scriptClose ++ a) := by
    unfold afterBody replace
    rw [he]
    simp only [List.append_assoc]
  obtain ⟨u1, v1, e3, _, _⟩ :=
    seoPasses_frame p.seo _ (seoInert_script p.initialData h1 h2 h3) b a
  refine ⟨u1, v1, ?_⟩
  rw [injectHTML_eq_seoPasses, e2, e3]
  simp only [List.append_assoc]
  rfl

theorem injectHTML_hydration_script_witness :
    ∃ pre post, injectHTML "<html><body><div id=\"root\"></div></body></html>".toList
        ⟨"<p>Hi</p>".toList, "[1,2]".toList, ⟨"T".toList, "D".toList, "K".toList⟩⟩
      = pre ++ "<script>window.__INITIAL_DATA__ = ".toList ++ "[1,2]".toList
          ++ "</script></body>".toList ++ post :=
  injectHTML_hydration_script "<html><body><div id=\"root\"></div></body></html>".toList
    ⟨"<p>Hi</p>".toList, "[1,2]".toList, ⟨"T".toList, "D".toList, "K".toList⟩⟩
    (by decide) (by decide) (by decide) (by decide) (by decide)

/-! ### The mount region -/

/-- C1 as stated fails, on a template with all five markers.  With the markup
`<p>$$9</p>` the mount element holds `<p>$9</p>`: the replacement text of
`replace` is expanded, `$$` standing for one `$`.  With the markup
`<p>__SEO_KEYWORDS__</p>` it holds `<p>K</p>`: the later SEO pass rewrites the
markup that has just been put in.  In both the text before the marker is
rewritten too. -/
theorem injectHTML_mount_counterexample :
    injectHTML ("<title>__SEO_TITLE__</title><meta content=\"__SEO_DESCRIPTION__\">"
          ++ "<meta content=\"__SEO_KEYWORDS__\"><body><div id=\"root\"></div></body>").toList
        ⟨"<p>$$9</p>".toList, "[]".toList, ⟨"T".toList, "D".toList, "K".toList⟩⟩
      = ("<title>T</title><meta content=\"D\"><meta content=\"K\"><body>"
          ++ "<div id=\"root\"><p>$9</p></div>"
          ++ "<script>window.__INITIAL_DATA__ = []</script></body>").toList
    ∧ ¬ ("<div id=\"root\">".toList ++ "<p>$$9</p>".toList ++ "</div>".toList)
        <:+: injectHTML ("<title>__SEO_TITLE__</title><meta content=\"__SEO_DESCRIPTION__\">"
          ++ "<meta content=\"__SEO_KEYWORDS__\"><body><div id=\"root\"></div></body>").toList
        ⟨"<p>$$9</p>".toList, "[]".toList, ⟨"T".toList, "D".toList, "K".toList⟩⟩
    ∧ injectHTML ("<title>__SEO_TITLE__</title><meta content=\"__SEO_DESCRIPTION__\">"
          ++ "<meta content=\"__SEO_KEYWORDS__\"><body><div id=\"root\"></div></body>").toList
        ⟨"<p>__SEO_KEYWORDS__</p>".toList, "[]".toList, ⟨"T".toList, "D".toList, "K".toList⟩⟩
      = ("<title>T</title><meta content=\"D\"><meta content=\"K\"><body>"
          ++ "<div id=\"root\"><p>K</p></div>"
          ++ "<script>window.__INITIAL_DATA__ = []</script></body>").toList := by
  refine ⟨by decide, by decide, by decide⟩

/-- C1 (amended): for every template `pre ++ <div id="root"></div> ++ post`
cut at its first root-mount marker, and every payload whose rendered markup
contains no `$`, no `</body>` and none of the three SEO tokens, the output is
`pre1 ++ <div id="root"> ++ appHTML ++ </div> ++ post1`, the markup standing
character for character in the mount element, where `pre1` and `post1` are
`pre` and `post` as rewritten by the later substitutions; a later root-mount
marker in `post` is still there in `post1`; and when no other text of the
payload contains `$`, `pre1` is `injectHTML pre`, and `post1` is the three SEO
passes applied to `post`, after the closing-body substitution when `pre` has no
`</body>`. -/
theorem injectHTML_mount_region (pre post : Str) (p : Payload)
    (hfirst : IsFirstOccurrence rootMarker pre post)
    (hd : '$' ∉ p.appHTML) (hb : ¬ bodyClose <:+: p.appHTML)
    (h1 : ¬ seoTitleToken <:+: p.appHTML) (h2 : ¬ seoDescriptionToken <:+: p.appHTML)
    (h3 : ¬ seoKeywordsToken <:+: p.appHTML) :
    ∃ pre1 post1,
      injectHTML (pre ++ rootMarker ++ post) p
          = pre1 ++ "<div id=\"root\">".toList ++ p.appHTML ++ "</div>".toList ++ post1
      ∧ (∀ m n, post = m ++ rootMarker ++ n → ∃ m1 n1, post1 = m1 ++ rootMarker ++ n1)
      ∧ ('$' ∉ p.initialData → '$' ∉ p.seo.title → '$' ∉ p.seo.description →
          '$' ∉ p.seo.keywords →
            pre1 = injectHTML pre p
            ∧ (bodyClose <:+: pre → post1 = seoPasses p.seo post)
            ∧ (¬ bodyClose <:+: pre → post1 = seoPasses p.seo
                (replace bodyClose (scriptOpen ++ p.initialData ++ scriptClose) post))) := by
  have e1 : afterRoot (pre ++ rootMarker ++ post) p
      = pre ++ (rootOpen ++ p.appHTML ++ divClose ++ post) := by
    unfold afterRoot replace
    rw [replaceFirstIn_first rootMarker _ (by decide) pre post [] [] hfirst,
      getSubstitution_of_not_mem _ _ _ _ (dollar_not_mem_mount _ hd)]
    simp only [List.append_assoc]
  obtain ⟨u1, v1, e2, f2, k2⟩ :=
    replace_frame bodyClose (scriptOpen ++ p.initialData ++ scriptClose) (by decide)
      (rootOpen ++ p.appHTML ++ divClose)
      (inert_mount bodyClose p.appHTML (by decide) (by decide) (by decide) (by decide) hb)
      pre post
  obtain ⟨u2, v2, e3, f3, k3⟩ :=
    seoPasses_frame p.seo _ (seoInert_mount p.appHTML h1 h2 h3) u1 v1
  have hpre : afterRoot pre p = pre :=
    replace_of_absent _ _ _ (hfirst.absent_before (by decide))
  refine ⟨u2, v2, ?_, ?_, ?_⟩
  · have e4 : afterBody (pre ++ rootMarker ++ post) p
        = u1 ++ (rootOpen ++ p.appHTML ++ divClose ++ v1) := by
      unfold afterBody
      rw [e1]
      exact e2
    rw [injectHTML_eq_seoPasses, e4, e3]
    simp only [List.append_assoc]
    rfl
  · intro m n hmn
    obtain ⟨m1, n1, e⟩ := k3 rootMarker seoInert_rootMarker
      (k2 rootMarker inert_body_rootMarker ⟨m, n, by rw [hmn, List.append_assoc]⟩)
    exact ⟨m1, n1, by rw [e, List.append_assoc]⟩
  · intro g1 g2 g3 g4
    obtain ⟨a1, a2, a3⟩ := f2 (dollar_not_mem_script _ g1)
    obtain ⟨b1, b2⟩ := f3 g2 g3 g4
    refine ⟨?_, ?_, ?_⟩
    · rw [b1, a1, injectHTML_eq_seoPasses]
      unfold afterBody
      rw [hpre]
    · intro hbp
      rw [b2, a2 hbp]
    · intro hbp
      rw [b2, a3 hbp]

theorem injectHTML_mount_region_witness :
    ∃ pre1 post1,
      injectHTML ("<title>__SEO_TITLE__</title><body>".toList ++ rootMarker
          ++ "</body>".toList)
          ⟨"<p>Hi</p>".toList, "[]".toList, ⟨"T".toList, "D".toList, "K".toList⟩⟩
        = pre1 ++ "<div id=\"root\">".toList ++ "<p>Hi</p>".toList ++ "</div>".toList ++ post1
      ∧ pre1 = "<title>T</title><body>".toList
      ∧ post1 = "<script>window.__INITIAL_DATA__ = []</script></body>".toList := by
  obtain ⟨pre1, post1, e, _, f⟩ :=
    injectHTML_mount_region "<title>__SEO_TITLE__</title><body>".toList "</body>".toList
      ⟨"<p>Hi</p>".toList, "[]".toList, ⟨"T".toList, "D".toList, "K".toList⟩⟩
      (isFirstOccurrence_of_absent _ _ _ (by decide))
      (by decide) (by decide) (by decide) (by decide) (by decide)
  obtain ⟨f1, _, f3⟩ := f (by decide) (by decide) (by decide) (by decide)
  refine ⟨pre1, post1, e, ?_, ?_⟩
  · rw [f1]
    decide
  · rw [f3 (by decide)]
    decide

/-! ### The SEO tokens -/

/-- C3 as stated fails.  With the title `$& deals` the title token is replaced
by itself followed by ` deals`, not by the title: the replacement text is
expanded, `$&` standing for the matched text.  With the title
`__SEO_KEYWORDS__` the place of the title ends up holding the keywords: the
later pass rewrites the value that has just been put in.  In
`__SEO_TITLE__SEO_TITLE__` the token occurs twice, at positions 0 and 11, and
only the first occurrence is replaced: the search resumes behind a match. -/
theorem injectHTML_seo_counterexample :
    injectHTML "<title>__SEO_TITLE__</title>".toList
        ⟨[], "[]".toList, ⟨"$& deals".toList, "D".toList, "K".toList⟩⟩
      = "<title>__SEO_TITLE__ deals</title>".toList
    ∧ injectHTML "<title>__SEO_TITLE__</title>".toList
        ⟨[], "[]".toList, ⟨"__SEO_KEYWORDS__".toList, "D".toList, "K".toList⟩⟩
      = "<title>K</title>".toList
    ∧ "__SEO_TITLE__SEO_TITLE__".toList
      = "__SEO_TITLE".toList ++ seoTitleToken
    ∧ injectHTML "__SEO_TITLE__SEO_TITLE__".toList
        ⟨[], "[]".toList, ⟨"T".toList, "D".toList, "K".toList⟩⟩
      = "TSEO_TITLE__".toList := by
  refine ⟨by decide, by decide, by decide, by decide⟩

/-- C3 (amended): let the document produced by the first two substitutions be
cut at token occurrences, `g0 ++ token k1 ++ g1 ++ token k2 ++ g2 ++ ...`,
where each stretch `gi` is not empty (`g0` may be), begins and ends with a
character that is not in a token, and contains no token.  If the three SEO
values contain no `$`, the title contains neither the description nor the
keywords token and the description does not contain the keywords token, then
`injectHTML` returns `g0 ++ value k1 ++ g1 ++ value k2 ++ g2 ++ ...`: every
listed occurrence, of each of the three tokens, is replaced by the value of its
field and the text between them is unchanged. -/
theorem injectHTML_seo_tokens (t : Str) (p : Payload) (g0 : Str)
    (segs : List (SeoField × Str))
    (hdoc : afterBody t p = weave tokenOf g0 segs)
    (hg0 : g0 = [] ∨ Gap g0) (hsegs : ∀ s ∈ segs, Gap s.2)
    (hd1 : '$' ∉ p.seo.title) (hd2 : '$' ∉ p.seo.description) (hd3 : '$' ∉ p.seo.keywords)
    (ht1 : ¬ seoDescriptionToken <:+: p.seo.title)
    (ht2 : ¬ seoKeywordsToken <:+: p.seo.title)
    (ht3 : ¬ seoKeywordsToken <:+: p.seo.description) :
    injectHTML t p = weave (valueOf p.seo) g0 segs := by
  have gf1 : ∀ g, Gap g → GapFor seoTitleToken g := fun g hg =>
    gapFor_of_gap _ g hg (fun c hc => by unfold tokenChars; simp [hc]) (fun h => h.2.2.1)
  have gf2 : ∀ g, Gap g → GapFor seoDescriptionToken g := fun g hg =>
    gapFor_of_gap _ g hg (fun c hc => by unfold tokenChars; simp [hc]) (fun h => h.2.2.2.1)
  have gf3 : ∀ g, Gap g → GapFor seoKeywordsToken g := fun g hg =>
    gapFor_of_gap _ g hg (fun c hc => by unfold tokenChars; simp [hc]) (fun h => h.2.2.2.2)
  have p1 : replaceAll seoTitleToken p.seo.title (weave tokenOf g0 segs)
      = weave (partialValue p.seo [.title]) g0 segs := by
    apply replaceAll_weave _ _ (by decide) hd1 _ _ _ _ (hg0.imp id (gf1 g0))
    rintro ⟨k, g⟩ hs
    refine ⟨gf1 _ (hsegs _ hs), ?_⟩
    cases k
    · exact Or.inl ⟨rfl, rfl⟩
    · exact Or.inr ⟨(by decide : ¬ seoTitleToken <:+: seoDescriptionToken), rfl⟩
    · exact Or.inr ⟨(by decide : ¬ seoTitleToken <:+: seoKeywordsToken), rfl⟩
  have p2 : replaceAll seoDescriptionToken p.seo.description
        (weave (partialValue p.seo [.title]) g0 segs)
      = weave (partialValue p.seo [.title, .description]) g0 segs := by
    apply replaceAll_weave _ _ (by decide) hd2 _ _ _ _ (hg0.imp id (gf2 g0))
    rintro ⟨k, g⟩ hs
    refine ⟨gf2 _ (hsegs _ hs), ?_⟩
    cases k
    · exact Or.inr ⟨ht1, rfl⟩
    · exact Or.inl ⟨rfl, rfl⟩
    · exact Or.inr ⟨(by decide : ¬ seoDescriptionToken <:+: seoKeywordsToken), rfl⟩
  have p3 : replaceAll seoKeywordsToken p.seo.keywords
        (weave (partialValue p.seo [.title, .description]) g0 segs)
      = weave (valueOf p.seo) g0 segs := by
    apply replaceAll_weave _ _ (by decide) hd3 _ _ _ _ (hg0.imp id (gf3 g0))
    rintro ⟨k, g⟩ hs
    refine ⟨gf3 _ (hsegs _ hs), ?_⟩
    cases k
    · exact Or.inr ⟨ht2, rfl⟩
    · exact Or.inr ⟨ht3, rfl⟩
    · exact Or.inl ⟨rfl, rfl⟩
  rw [injectHTML_eq_seoPasses, hdoc]
  unfold seoPasses
  rw [p1, p2, p3]

theorem injectHTML_seo_tokens_witness :
    injectHTML ("<head><title>__SEO_TITLE__</title>"
          ++ "<meta name=\"description\" content=\"__SEO_DESCRIPTION__\">"
          ++ "<meta name=\"keywords\" content=\"__SEO_KEYWORDS__\">"
          ++ "<meta property=\"og:title\" content=\"__SEO_TITLE__\"></head>"
          ++ "<body><div id=\"root\"></div></body>").toList
        ⟨"<p>Hi</p>".toList, "[]".toList, homeSeo⟩
      = weave (valueOf homeSeo) "<head><title>".toList
          [(SeoField.title, "</title><meta name=\"description\" content=\"".toList),
            (SeoField.description, "\"><meta name=\"keywords\" content=\"".toList),
            (SeoField.keywords, "\"><meta property=\"og:title\" content=\"".toList),
            (SeoField.title, ("\"></head><body><div id=\"root\"><p>Hi</p></div>"
              ++ "<script>window.__INITIAL_DATA__ = []</script></body>").toList)] :=
  injectHTML_seo_tokens _ ⟨"<p>Hi</p>".toList, "[]".toList, homeSeo⟩ _ _
    (by decide) (Or.inr (by decide)) (by decide) (by decide) (by decide) (by decide)
    (by decide) (by decide) (by decide)

end Server
